import Mathlib

/-!
Verification of `lock-free-ds` (src/stack.hpp): a single-threaded stack,
a Treiber CAS stack, and a hazard-pointer manager.

Pointers are modelled as natural-number node identifiers; `Option Nat`
models a possibly-null pointer (`none` = nullptr).  Sequential executions
of the stack operations are embedded as pure state transformers; the
Treiber operations additionally emit a trace of the atomic events they
perform, so that statements about what an operation touches (hazard
slots, retire lists) are about the recorded behaviour, not only the
final state.
-/

namespace StackSingleThreaded

/-- `StackSingleThreaded<T>::push`: allocate a node, link it in front of
`head` (`n->next = head; head = n`).  The heap chain from `head` is the
list of stored values, top first. -/
def push (v : α) (s : List α) : List α := v :: s

/-- `StackSingleThreaded<T>::pop`: if `head` is null return `nullopt`,
otherwise unlink the top node, delete it and return its value. -/
def pop : List α → Option α × List α
  | [] => (none, [])
  | v :: rest => (some v, rest)

/-- A sequence of pushes of `vs`, in order, onto stack `s`. -/
def pushAll (vs : List α) (s : List α) : List α :=
  vs.foldl (fun acc v => push v acc) s

/-- `n` consecutive pops: the list of returned values and the final stack. -/
def popN : Nat → List α → List (Option α) × List α
  | 0, s => ([], s)
  | n + 1, s =>
      let r := pop s
      let rest := popN n r.2
      (r.1 :: rest.1, rest.2)

end StackSingleThreaded

namespace HazardPointerManager

/-- One entry of the fixed hazard-slot table (`HazardPointerManager::Slot`):
an atomic pointer (null when nothing is protected) and an ownership flag. -/
structure Slot where
  ptr : Option Nat
  used : Bool
deriving DecidableEq

/-- `MAX_HAZARD_POINTERS`: fixed capacity of the slot table. -/
def MAX_HAZARD_POINTERS : Nat := 128

/-- `RECLAIM_THRESHOLD`: retired-list length at which `retire` scans. -/
def RECLAIM_THRESHOLD : Nat := 64

/-- The snapshot loop of `reclaim`: read every slot's pointer and collect
the non-null ones into the `hazards` lookup set (modelled as a list used
through membership). -/
def snapshot (slots : List Slot) : List Nat :=
  slots.filterMap Slot.ptr

/-- Modelled from the spec: the partition step of
`HazardPointerManager::reclaim` is left unimplemented in the source (the
body ends at the comment `Partition retuired: delete those not in hazards,
keep the rest`); only the snapshot loop above it is written out.  Per the
spec, every retired entry whose pointer is present in the snapshot is
re-appended to the retired list and every entry absent from the snapshot is
physically freed via the deleter.  The first component is the list kept for
the next scan, the second is the list of pointers handed to the deleter. -/
def reclaim (slots : List Slot) (retired : List Nat) : List Nat × List Nat :=
  let hazards := snapshot slots
  (retired.filter (fun p => decide (p ∈ hazards)),
   retired.filter (fun p => decide (p ∉ hazards)))

/-- Result of one call to `retire` for the full per-thread retired-list
table: the updated table, whether a reclamation scan ran during the call,
and the pointers the scan handed to the deleter. -/
structure RetireResult where
  lists : Nat → List Nat
  scanned : Bool
  freed : List Nat

/-- `HazardPointerManager::retire`: append `p` to thread `t`'s private
retired list (`retired.push_back(p)`); if the list's size has reached
`RECLAIM_THRESHOLD`, run `reclaim` over that list. -/
def retire (slots : List Slot) (lists : Nat → List Nat) (t : Nat) (p : Nat) :
    RetireResult :=
  let r := lists t ++ [p]
  if RECLAIM_THRESHOLD ≤ r.length then
    let q := reclaim slots r
    ⟨Function.update lists t q.1, true, q.2⟩
  else
    ⟨Function.update lists t r, false, []⟩

/-- Explicit failure condition of `acquire_slot_index`. -/
inductive SlotError where
  | capacityExceeded
deriving DecidableEq

/-- Scan of the slot table for the first unused slot, returning its index. -/
def scanFree : List Slot → Option Nat
  | [] => none
  | sl :: rest => if sl.used then (scanFree rest).map (· + 1) else some 0

/-- Mark the slot at index `i` used, leaving every other slot unchanged. -/
def markUsed : List Slot → Nat → List Slot
  | [], _ => []
  | sl :: rest, 0 => { sl with used := true } :: rest
  | sl :: rest, i + 1 => sl :: markUsed rest i

/-- Modelled from the spec: `HazardPointerManager::acquire_slot_index` has
an empty body in the source.  Per the spec, each thread caches a slot index
(`cached`); on the first call (`cached = none`) the fixed slot table is
scanned for an unused slot, which is marked used and whose index is
returned and cached; if every slot is in use the call fails with an
explicit capacity-exceeded condition. -/
def acquire_slot_index (cached : Option Nat) (slots : List Slot) :
    Except SlotError (Nat × List Slot) :=
  match cached with
  | some i => .ok (i, slots)
  | none =>
      match scanFree slots with
      | some i => .ok (i, markUsed slots i)
      | none => .error .capacityExceeded

end HazardPointerManager

namespace StackTreiber

/-- Atomic events a sequential execution of a `StackTreiber` operation
performs, in program order.  The hazard-slot and retire events exist so
that interaction (or the absence of interaction) with
`HazardPointerManager` is part of the recorded behaviour. -/
inductive Event where
  | allocNode (id : Nat)
  | loadHead (p : Option Nat)
  | setNext (id : Nat) (next : Option Nat)
  | casHead (expected : Option Nat) (next : Option Nat) (ok : Bool)
  | readNext (id : Nat) (next : Option Nat)
  | readValue (id : Nat)
  | protect (slot : Nat) (p : Option Nat)
  | clearHazard (slot : Nat)
  | retirePtr (id : Nat)
deriving DecidableEq

/-- Whether an event touches the hazard-pointer machinery: a write to a
hazard slot (publish or clear) or a hand-off to `retire`. -/
def Event.isHazardInteraction : Event → Bool
  | .protect _ _ => true
  | .clearHazard _ => true
  | .retirePtr _ => true
  | _ => false

/-- Sequential state of a `StackTreiber<T>` together with the process-wide
`HazardPointerManager` state.  The chain reachable from `head` is the list
`stack` of (node id, value) pairs, top first; `nextId` is the allocator
counter handing out fresh node ids. -/
structure State (α : Type) where
  stack : List (Nat × α)
  nextId : Nat
  slots : List HazardPointerManager.Slot
  retiredLists : Nat → List Nat

/-- Node id at the top of a chain (`head` as a possibly-null pointer). -/
def headId (l : List (Nat × α)) : Option Nat :=
  l.head?.map Prod.fst

/-- `StackTreiber<T>::push` (sequential execution): allocate a node with a
fresh id, set its `next` to the loaded head, and CAS-link it (the CAS
succeeds at once without contention).  Returns the new state and the event
trace. -/
def push (v : α) (s : State α) : State α × List Event :=
  ({ s with stack := (s.nextId, v) :: s.stack, nextId := s.nextId + 1 },
   [Event.allocNode s.nextId,
    Event.loadHead (headId s.stack),
    Event.setNext s.nextId (headId s.stack),
    Event.casHead (headId s.stack) (some s.nextId) true])

/-- `StackTreiber<T>::pop` (sequential execution): load head; if null
return `nullopt`; otherwise read the candidate's `next`, CAS head to it
(succeeding at once without contention), move the value out and return it.
The delete of the unlinked node is commented out in the source, and the
body contains no hazard-slot or retire call, so the trace records none and
the node id simply leaves the stack. -/
def pop (s : State α) : Option α × State α × List Event :=
  match s.stack with
  | [] => (none, s, [Event.loadHead none])
  | (id, v) :: rest =>
      (some v, { s with stack := rest },
       [Event.loadHead (some id),
        Event.readNext id (headId rest),
        Event.casHead (some id) (headId rest) true,
        Event.readValue id])

/-- A sequence of pushes of `vs`, in order (traces discarded). -/
def pushAll (vs : List α) (s : State α) : State α :=
  vs.foldl (fun st v => (push v st).1) s

/-- `n` consecutive pops (traces discarded): returned values and final
state. -/
def popN : Nat → State α → List (Option α) × State α
  | 0, s => ([], s)
  | n + 1, s =>
      let r := pop s
      let rest := popN n r.2.1
      (r.1 :: rest.1, rest.2)

/-- The protect-validate-unlink-retire protocol that the spec ascribes to
`pop`, stated over the recorded trace and post-state of an invocation on a
non-empty stack: the loaded head pointer is published into some hazard
slot, that slot is cleared again, and the unlinked node is handed to
`retire` and appears on some thread's retired list afterwards. -/
def popFollowsRetireProtocol (s : State α) : Prop :=
  ∀ id v rest, s.stack = (id, v) :: rest →
    (∃ k, Event.protect k (some id) ∈ (pop s).2.2) ∧
    (∃ k, Event.clearHazard k ∈ (pop s).2.2) ∧
    Event.retirePtr id ∈ (pop s).2.2 ∧
    (∃ t, id ∈ (pop s).2.1.retiredLists t)

end StackTreiber

/-! ## Auxiliary lemmas -/

theorem StackSingleThreaded.pushAll_eq (vs s : List α) :
    StackSingleThreaded.pushAll vs s = vs.reverse ++ s := by
  induction vs generalizing s with
  | nil => rfl
  | cons v vs ih =>
      simp only [pushAll, List.foldl_cons, List.reverse_cons]
      rw [show List.foldl (fun acc v => push v acc) (push v s) vs
            = pushAll vs (push v s) from rfl, ih]
      simp [push]

theorem StackSingleThreaded.popN_length (s : List α) :
    StackSingleThreaded.popN s.length s = (s.map some, []) := by
  induction s with
  | nil => rfl
  | cons v rest ih => simp [popN, pop, ih]

theorem StackSingleThreaded.popN_nil (k : Nat) :
    StackSingleThreaded.popN k ([] : List α) = (List.replicate k none, []) := by
  induction k with
  | zero => rfl
  | succ k ih => simp [popN, pop, ih, List.replicate_succ]

theorem HazardPointerManager.mem_snapshot {slots : List HazardPointerManager.Slot}
    {p : Nat} : p ∈ HazardPointerManager.snapshot slots ↔
      ∃ sl ∈ slots, sl.ptr = some p := by
  simp [snapshot, List.mem_filterMap]

theorem HazardPointerManager.mem_reclaim_kept
    {slots : List HazardPointerManager.Slot} {retired : List Nat} {p : Nat} :
    p ∈ (HazardPointerManager.reclaim slots retired).1 ↔
      p ∈ retired ∧ p ∈ HazardPointerManager.snapshot slots := by
  simp [reclaim, List.mem_filter]

theorem HazardPointerManager.mem_reclaim_freed
    {slots : List HazardPointerManager.Slot} {retired : List Nat} {p : Nat} :
    p ∈ (HazardPointerManager.reclaim slots retired).2 ↔
      p ∈ retired ∧ p ∉ HazardPointerManager.snapshot slots := by
  simp [reclaim, List.mem_filter]

theorem HazardPointerManager.scanFree_eq_none_iff
    (l : List HazardPointerManager.Slot) :
    HazardPointerManager.scanFree l = none ↔ ∀ sl ∈ l, sl.used = true := by
  induction l with
  | nil => simp [scanFree]
  | cons sl rest ih =>
      cases h : sl.used with
      | true => simp [scanFree, h, Option.map_eq_none', ih]
      | false => simp [scanFree, h]

theorem HazardPointerManager.scanFree_some_unused
    (l : List HazardPointerManager.Slot) (i : Nat)
    (h : HazardPointerManager.scanFree l = some i) :
    (l[i]?).map HazardPointerManager.Slot.used = some false := by
  induction l generalizing i with
  | nil => simp [scanFree] at h
  | cons sl rest ih =>
      cases hu : sl.used with
      | true =>
          rw [scanFree, hu] at h
          simp only [if_pos rfl] at h
          obtain ⟨j, hj, rfl⟩ := Option.map_eq_some'.1 h
          simpa using ih j hj
      | false =>
          rw [scanFree, hu] at h
          simp only [Bool.false_eq_true, if_neg] at h
          cases h
          simp [hu]

theorem HazardPointerManager.markUsed_getElem_self
    (l : List HazardPointerManager.Slot) (i : Nat) :
    (HazardPointerManager.markUsed l i)[i]?
      = (l[i]?).map (fun sl => { sl with used := true }) := by
  induction l generalizing i with
  | nil => simp [markUsed]
  | cons sl rest ih =>
      cases i with
      | zero => simp [markUsed]
      | succ i => simpa [markUsed] using ih i

theorem HazardPointerManager.markUsed_getElem_ne
    (l : List HazardPointerManager.Slot) (i j : Nat) (h : j ≠ i) :
    (HazardPointerManager.markUsed l i)[j]? = l[j]? := by
  induction l generalizing i j with
  | nil => simp [markUsed]
  | cons sl rest ih =>
      cases i with
      | zero =>
          cases j with
          | zero => exact absurd rfl h
          | succ j => simp [markUsed]
      | succ i =>
          cases j with
          | zero => simp [markUsed]
          | succ j =>
              simpa [markUsed] using ih i j (by omega)

theorem StackTreiber.pushAll_values (vs : List α) (s : StackTreiber.State α) :
    (StackTreiber.pushAll vs s).stack.map Prod.snd
      = vs.reverse ++ s.stack.map Prod.snd := by
  induction vs generalizing s with
  | nil => simp [pushAll]
  | cons v vs ih =>
      rw [show pushAll (v :: vs) s = pushAll vs (push v s).1 from rfl, ih]
      simp [push]

theorem StackTreiber.popN_values (l : List (Nat × α)) (s : StackTreiber.State α)
    (h : s.stack = l) :
    (StackTreiber.popN l.length s).1 = l.map (fun q => some q.2) := by
  induction l generalizing s with
  | nil => simp [popN]
  | cons q rest ih =>
      obtain ⟨st, nid, sl, rl⟩ := s
      obtain ⟨id, v⟩ := q
      cases h
      simp only [List.length_cons, popN, pop, List.map_cons]
      exact congrArg (some v :: ·) (ih ⟨rest, nid, sl, rl⟩ rfl)

theorem StackTreiber.popN_empty (k : Nat) (s : StackTreiber.State α)
    (h : s.stack = []) :
    StackTreiber.popN k s = (List.replicate k none, s) := by
  induction k with
  | zero => rfl
  | succ k ih =>
      obtain ⟨st, nid, sl, rl⟩ := s
      cases h
      simp [popN, pop, ih, List.replicate_succ]

/-! ## Claim theorems -/

/-- Claim C10: pushing `v` on `StackSingleThreaded` and then popping
returns a value equal to `v` and leaves the stack holding exactly the
sequence of values it held before the push. -/
theorem singleThreaded_push_pop_roundtrip (s : List α) (v : α) :
    StackSingleThreaded.pop (StackSingleThreaded.push v s) = (some v, s) := rfl

/-- Claim C2: for every slot table and retired list,
`HazardPointerManager::reclaim` partitions the retired list against the
snapshot of the slots' pointers: a retired pointer absent from the snapshot
is handed to the deleter, a retired pointer present in the snapshot is kept
(re-appended) instead, and no pointer is both kept and freed. -/
theorem reclaim_partitions_retired (slots : List HazardPointerManager.Slot)
    (retired : List Nat) (p : Nat) (h : p ∈ retired) :
    (p ∈ (HazardPointerManager.reclaim slots retired).2 ↔
      p ∉ HazardPointerManager.snapshot slots) ∧
    (p ∈ (HazardPointerManager.reclaim slots retired).1 ↔
      p ∈ HazardPointerManager.snapshot slots) ∧
    ¬ (p ∈ (HazardPointerManager.reclaim slots retired).1 ∧
        p ∈ (HazardPointerManager.reclaim slots retired).2) := by
  refine ⟨by simp [HazardPointerManager.mem_reclaim_freed, h],
          by simp [HazardPointerManager.mem_reclaim_kept, h], ?_⟩
  rintro ⟨h1, h2⟩
  exact (HazardPointerManager.mem_reclaim_freed.1 h2).2
    (HazardPointerManager.mem_reclaim_kept.1 h1).2

theorem reclaim_partitions_retired_witness :
    7 ∈ (HazardPointerManager.reclaim
      ([⟨some 3, true⟩, ⟨none, false⟩] : List HazardPointerManager.Slot) [3, 7]).2 ∧
    3 ∈ (HazardPointerManager.reclaim
      ([⟨some 3, true⟩, ⟨none, false⟩] : List HazardPointerManager.Slot) [3, 7]).1 :=
  ⟨(reclaim_partitions_retired _ [3, 7] 7 (by decide)).1.mpr (by decide),
   (reclaim_partitions_retired _ [3, 7] 3 (by decide)).2.1.mpr (by decide)⟩

/-- Claim C3: a reclamation scan never frees a protected node — every
pointer `HazardPointerManager::reclaim` hands to the deleter is absent from
the snapshot, i.e. no slot of the table holds it at snapshot time. -/
theorem reclaim_never_frees_protected (slots : List HazardPointerManager.Slot)
    (retired : List Nat) (p : Nat)
    (h : p ∈ (HazardPointerManager.reclaim slots retired).2) :
    p ∉ HazardPointerManager.snapshot slots ∧
    ∀ sl ∈ slots, sl.ptr ≠ some p := by
  have h2 := HazardPointerManager.mem_reclaim_freed.1 h
  refine ⟨h2.2, fun sl hsl hp => ?_⟩
  exact h2.2 (HazardPointerManager.mem_snapshot.2 ⟨sl, hsl, hp⟩)

theorem reclaim_never_frees_protected_witness :
    5 ∉ HazardPointerManager.snapshot
      ([⟨some 3, true⟩] : List HazardPointerManager.Slot) :=
  (reclaim_never_frees_protected _ [5] 5 (by decide)).1

/-- Claim C4: on a thread's first call, `acquire_slot_index` fails with the
explicit capacity-exceeded condition exactly when every slot is in use;
when some slot is unused it succeeds, and a success returns the index of a
slot that was unused, marks exactly that slot used (its pointer and all
other slots unchanged), and a later call with the cached index returns the
same index without touching the table. -/
theorem acquire_slot_index_spec (slots : List HazardPointerManager.Slot) :
    ((∀ sl ∈ slots, sl.used = true) →
      HazardPointerManager.acquire_slot_index none slots
        = .error .capacityExceeded) ∧
    ((∃ sl ∈ slots, sl.used = false) →
      ∃ i slots2, HazardPointerManager.acquire_slot_index none slots
        = .ok (i, slots2)) ∧
    (∀ i slots2, HazardPointerManager.acquire_slot_index none slots
        = .ok (i, slots2) →
      (slots[i]?).map HazardPointerManager.Slot.used = some false ∧
      (slots2[i]?).map HazardPointerManager.Slot.used = some true ∧
      (slots2[i]?).map HazardPointerManager.Slot.ptr
        = (slots[i]?).map HazardPointerManager.Slot.ptr ∧
      (∀ j, j ≠ i → slots2[j]? = slots[j]?) ∧
      HazardPointerManager.acquire_slot_index (some i) slots2
        = .ok (i, slots2)) := by
  refine ⟨?_, ?_, ?_⟩
  · intro h
    rw [HazardPointerManager.acquire_slot_index,
        (HazardPointerManager.scanFree_eq_none_iff slots).2 h]
  · intro h
    cases hs : HazardPointerManager.scanFree slots with
    | none =>
        obtain ⟨sl, hsl, hu⟩ := h
        have := (HazardPointerManager.scanFree_eq_none_iff slots).1 hs sl hsl
        simp [this] at hu
    | some i =>
        exact ⟨i, HazardPointerManager.markUsed slots i,
          by rw [HazardPointerManager.acquire_slot_index, hs]⟩
  · intro i slots2 h
    cases hs : HazardPointerManager.scanFree slots with
    | none => rw [HazardPointerManager.acquire_slot_index, hs] at h; cases h
    | some i0 =>
        rw [HazardPointerManager.acquire_slot_index, hs] at h
        obtain ⟨rfl, rfl⟩ : i0 = i ∧ HazardPointerManager.markUsed slots i0 = slots2 := by
          cases h; exact ⟨rfl, rfl⟩
        have hu := HazardPointerManager.scanFree_some_unused slots i0 hs
        obtain ⟨sl, hsl, hused⟩ := Option.map_eq_some'.1 hu
        refine ⟨hu, ?_, ?_, ?_, rfl⟩
        · rw [HazardPointerManager.markUsed_getElem_self, hsl]
          rfl
        · rw [HazardPointerManager.markUsed_getElem_self, hsl]
          rfl
        · intro j hj
          exact HazardPointerManager.markUsed_getElem_ne slots i0 j hj

theorem acquire_slot_index_spec_witness :
    ((HazardPointerManager.markUsed
        ([⟨none, true⟩, ⟨some 9, false⟩] : List HazardPointerManager.Slot) 1)[1]?).map
      HazardPointerManager.Slot.used = some true :=
  ((acquire_slot_index_spec
      ([⟨none, true⟩, ⟨some 9, false⟩] : List HazardPointerManager.Slot)).2.2 1
    (HazardPointerManager.markUsed
      ([⟨none, true⟩, ⟨some 9, false⟩] : List HazardPointerManager.Slot) 1)
    rfl).2.1

/-- Claim C5: `retire` appends the pointer to the calling thread's private
retired list and runs a reclamation scan during the call exactly when that
list's length has reached the threshold 64; below the threshold nothing is
freed and the list is just the old list with the pointer appended.  A scan
only ever keeps or frees entries of that thread's own list, and the other
threads' retired lists are never modified. -/
theorem retire_threshold_spec (slots : List HazardPointerManager.Slot)
    (lists : Nat → List Nat) (t p : Nat) :
    ((HazardPointerManager.retire slots lists t p).scanned = true ↔
      64 ≤ (lists t ++ [p]).length) ∧
    ((HazardPointerManager.retire slots lists t p).scanned = false →
      (HazardPointerManager.retire slots lists t p).lists t = lists t ++ [p] ∧
      (HazardPointerManager.retire slots lists t p).freed = []) ∧
    ((HazardPointerManager.retire slots lists t p).scanned = true →
      ∀ q ∈ (HazardPointerManager.retire slots lists t p).lists t,
        q ∈ lists t ++ [p] ∧ q ∈ HazardPointerManager.snapshot slots) ∧
    (∀ q ∈ (HazardPointerManager.retire slots lists t p).freed,
      q ∈ lists t ++ [p] ∧ q ∉ HazardPointerManager.snapshot slots) ∧
    (∀ u, u ≠ t → (HazardPointerManager.retire slots lists t p).lists u = lists u) := by
  have hres : HazardPointerManager.retire slots lists t p =
      if HazardPointerManager.RECLAIM_THRESHOLD ≤ (lists t ++ [p]).length then
        ⟨Function.update lists t
            (HazardPointerManager.reclaim slots (lists t ++ [p])).1,
          true, (HazardPointerManager.reclaim slots (lists t ++ [p])).2⟩
      else ⟨Function.update lists t (lists t ++ [p]), false, []⟩ := rfl
  by_cases hc : HazardPointerManager.RECLAIM_THRESHOLD ≤ (lists t ++ [p]).length
  · rw [hres, if_pos hc]
    refine ⟨?_, ?_, ?_, ?_, ?_⟩
    · simpa [HazardPointerManager.RECLAIM_THRESHOLD] using hc
    · intro h
      exact absurd h (by simp)
    · intro _ q hq
      rw [show (⟨Function.update lists t
            (HazardPointerManager.reclaim slots (lists t ++ [p])).1, true,
            (HazardPointerManager.reclaim slots (lists t ++ [p])).2⟩ :
          HazardPointerManager.RetireResult).lists t
          = (HazardPointerManager.reclaim slots (lists t ++ [p])).1
          from Function.update_same t _ lists] at hq
      exact HazardPointerManager.mem_reclaim_kept.1 hq
    · intro q hq
      exact HazardPointerManager.mem_reclaim_freed.1 hq
    · intro u hu
      exact Function.update_noteq hu _ lists
  · rw [hres, if_neg hc]
    refine ⟨?_, ?_, ?_, ?_, ?_⟩
    · refine iff_of_false (by simp) ?_
      simpa [HazardPointerManager.RECLAIM_THRESHOLD] using hc
    · intro _
      exact ⟨Function.update_same t _ lists, rfl⟩
    · intro h
      exact absurd h (by simp)
    · intro q hq
      exact absurd hq (by simp)
    · intro u hu
      exact Function.update_noteq hu _ lists

theorem retire_threshold_spec_witness :
    (HazardPointerManager.retire [] (fun _ => []) 0 5).lists 0 = [5] ∧
    (HazardPointerManager.retire [] (fun _ => []) 0 5).lists 1 = [] ∧
    (HazardPointerManager.retire [] (fun _ => List.replicate 63 9) 0 5).scanned
      = true :=
  ⟨((retire_threshold_spec [] (fun _ => []) 0 5).2.1 rfl).1,
   (retire_threshold_spec [] (fun _ => []) 0 5).2.2.2.2 1 (by decide),
   ((retire_threshold_spec [] (fun _ => List.replicate 63 9) 0 5).1).mpr
     (by simp)⟩

/-- Claim C1, counterexample: the source's `StackTreiber::pop` does not
follow the protect-validate-unlink-retire protocol.  On the concrete state
whose stack holds the single node 0 with value 5, the invocation's trace
contains no hazard publication, no hazard clear and no retire hand-off, and
the unlinked node appears on no retired list. -/
theorem treiberPop_retire_protocol_counterexample :
    ¬ StackTreiber.popFollowsRetireProtocol
        (⟨[(0, (5 : Int))], 1, [], fun _ => []⟩ : StackTreiber.State Int) := by
  intro h
  exact absurd (h 0 5 [] rfl).2.2.1 (by decide)

/-- Claim C1, amended: on a non-empty stack, `StackTreiber::pop` loads
head, reads the candidate's `next`, unlinks it with one successful CAS and
returns the moved value, but it performs no hazard-slot publication, no
re-validation, no clear and no retire: every event of the trace is free of
hazard interaction, and the hazard slots and retired lists of the post
state are unchanged (the unlinked node is leaked). -/
theorem treiberPop_no_hazard_interaction (s : StackTreiber.State α) (id : Nat)
    (v : α) (rest : List (Nat × α)) (h : s.stack = (id, v) :: rest) :
    (StackTreiber.pop s).1 = some v ∧
    (StackTreiber.pop s).2.1.stack = rest ∧
    (StackTreiber.pop s).2.1.slots = s.slots ∧
    (StackTreiber.pop s).2.1.retiredLists = s.retiredLists ∧
    (∀ e ∈ (StackTreiber.pop s).2.2, e.isHazardInteraction = false) ∧
    StackTreiber.Event.casHead (some id) (StackTreiber.headId rest) true
      ∈ (StackTreiber.pop s).2.2 := by
  obtain ⟨st, nid, sl, rl⟩ := s
  cases h
  refine ⟨rfl, rfl, rfl, rfl, ?_, by simp [StackTreiber.pop]⟩
  intro e he
  simp only [StackTreiber.pop, List.mem_cons, List.not_mem_nil, or_false] at he
  rcases he with rfl | rfl | rfl | rfl <;> rfl

theorem treiberPop_no_hazard_interaction_witness :
    (StackTreiber.pop
        (⟨[(0, (5 : Int))], 1, [], fun _ => []⟩ : StackTreiber.State Int)).1
      = some 5 ∧
    (StackTreiber.pop
        (⟨[(0, (5 : Int))], 1, [], fun _ => []⟩ : StackTreiber.State Int)).2.1.slots
      = [] :=
  ⟨(treiberPop_no_hazard_interaction _ 0 5 [] rfl).1,
   (treiberPop_no_hazard_interaction
      (⟨[(0, (5 : Int))], 1, [], fun _ => []⟩ : StackTreiber.State Int)
      0 5 [] rfl).2.2.1⟩

/-- Claim C9: `StackTreiber::push` never interacts with the hazard-pointer
machinery: after any push the hazard-slot table and every thread's retired
list are unchanged, no event of its trace is a hazard interaction, and its
whole effect on the stack is to link one new node holding `v` in front of
the observed head. -/
theorem treiberPush_frame (v : α) (s : StackTreiber.State α) :
    (StackTreiber.push v s).1.slots = s.slots ∧
    (StackTreiber.push v s).1.retiredLists = s.retiredLists ∧
    (StackTreiber.push v s).1.stack = (s.nextId, v) :: s.stack ∧
    ((StackTreiber.push v s).2.all
      (fun e => !e.isHazardInteraction)) = true :=
  ⟨rfl, rfl, rfl, rfl⟩

/-- Claim C6: LIFO order — pushing `v1, ..., vn` on an initially empty
stack and then popping `n` times returns `vn, ..., v1` in that order, both
for `StackSingleThreaded` and for a sequential execution of
`StackTreiber` from any initial hazard state with an empty stack. -/
theorem stacks_lifo (vs : List α) (nId : Nat)
    (slots : List HazardPointerManager.Slot) (rl : Nat → List Nat) :
    (StackSingleThreaded.popN vs.length
        (StackSingleThreaded.pushAll vs [])).1 = vs.reverse.map some ∧
    (StackTreiber.popN vs.length
        (StackTreiber.pushAll vs ⟨[], nId, slots, rl⟩)).1
      = vs.reverse.map some := by
  constructor
  · rw [StackSingleThreaded.pushAll_eq, List.append_nil,
        show vs.length = vs.reverse.length from (List.length_reverse vs).symm,
        StackSingleThreaded.popN_length]
  · have hv := StackTreiber.pushAll_values vs
      (⟨[], nId, slots, rl⟩ : StackTreiber.State α)
    simp only [List.map_nil, List.append_nil] at hv
    have hlen : (StackTreiber.pushAll vs
        (⟨[], nId, slots, rl⟩ : StackTreiber.State α)).stack.length = vs.length := by
      have := congrArg List.length hv
      simpa using this
    rw [← hlen, StackTreiber.popN_values _ _ rfl,
        show (fun q : Nat × α => some q.2) = some ∘ Prod.snd from rfl,
        ← List.map_map, hv]

/-- Claim C8: pop on an empty stack returns the no-value outcome at once.
For `StackSingleThreaded`, any number of pops on the empty stack return
`none` and leave it empty; for a sequential `StackTreiber` execution from
any state with an empty stack, pop returns `none`, leaves the state
untouched, its trace is the single null head load (no CAS is attempted),
and any number of repeated pops still return only `none`. -/
theorem pop_empty_idempotent (k : Nat) (s : StackTreiber.State α)
    (h : s.stack = []) :
    StackSingleThreaded.popN k ([] : List α) = (List.replicate k none, []) ∧
    (StackTreiber.pop s).1 = none ∧
    (StackTreiber.pop s).2.1 = s ∧
    (StackTreiber.pop s).2.2 = [StackTreiber.Event.loadHead none] ∧
    StackTreiber.popN k s = (List.replicate k none, s) := by
  obtain ⟨st, nid, sl, rl⟩ := s
  cases h
  exact ⟨StackSingleThreaded.popN_nil k, rfl, rfl, rfl,
    StackTreiber.popN_empty k _ rfl⟩

theorem pop_empty_idempotent_witness :
    (StackTreiber.pop
        (⟨[], 0, [], fun _ => []⟩ : StackTreiber.State Int)).1 = none ∧
    (StackTreiber.popN 3
        (⟨[], 0, [], fun _ => []⟩ : StackTreiber.State Int)).1
      = [none, none, none] :=
  ⟨(pop_empty_idempotent 3
      (⟨[], 0, [], fun _ => []⟩ : StackTreiber.State Int) rfl).2.1,
   by
    rw [(pop_empty_idempotent 3
      (⟨[], 0, [], fun _ => []⟩ : StackTreiber.State Int) rfl).2.2.2.2]
    rfl⟩
